import Mathlib

/-!
Verification of the document-structuring core of `beuamontUserguide.py`
(section splitting, table normalization, caption recovery, markdown
serialization), as a shallow embedding in Lean.
-/

set_option autoImplicit false

namespace Beaumont

/-- Python whitespace characters removed by `str.strip()` (ASCII subset). -/
def isPySpace (c : Char) : Bool :=
  c = ' ' || c = '\t' || c = '\n' || c = '\r' || c = '\x0b' || c = '\x0c'

/-- Character-list version of Python `str.strip()`. -/
def pyStripList (cs : List Char) : List Char :=
  ((cs.dropWhile isPySpace).reverse.dropWhile isPySpace).reverse

/-- Python `str.strip()`: remove leading and trailing whitespace. -/
def pyStrip (s : String) : String :=
  String.mk (pyStripList s.data)

/-- Python `s.startswith(pre)`. -/
def pyStartsWith (s pre : String) : Bool :=
  pre.data.isPrefixOf s.data

/-- Python `s.endswith(suf)`. -/
def pyEndsWith (s suf : String) : Bool :=
  suf.data.isSuffixOf s.data

/-- Python `sep.join(items)`. -/
def join_sep (sep : String) : List String → String
  | [] => ""
  | [s] => s
  | s :: rest => s ++ (sep ++ join_sep sep rest)

/-- A Python `dict` with string keys and values, as an insertion-ordered
association list whose keys are unique by construction. -/
abbrev Dict := List (String × String)

/-- Python `d[k] = v`: replace the value at an existing key in place,
otherwise append the new binding at the end. -/
def dictInsert : Dict → String → String → Dict
  | [], k, v => [(k, v)]
  | (k', v') :: rest, k, v =>
    if k' = k then (k, v) :: rest else (k', v') :: dictInsert rest k v

/-- Lookup in a `Dict` (first binding with the key). -/
def dictFind? (d : Dict) (k : String) : Option String :=
  (d.find? (fun p => p.1 = k)).map Prod.snd

/-- Python `d.get(k, dflt)`. -/
def dictGet (d : Dict) (k dflt : String) : String :=
  (dictFind? d k).getD dflt

/-- A paragraph record: its text, its style name, and the truthiness of
`run.bold` for each of its runs (`para.runs`). -/
structure Para where
  text : String
  style_name : String
  runs_bold : List Bool
deriving DecidableEq, Repr

/-- A section dict as built by `process_docx`.  `subsections = some []`
models a `"subsections": []` key being present, `none` its absence; the code
never puts anything into that list, so the element type is immaterial. -/
structure Section where
  title : String
  content : List String
  subsections : Option (List String)
deriving DecidableEq, Repr

/-- A sibling XML element preceding a table: its tag and its text. -/
structure Block where
  tag : String
  text : String
deriving DecidableEq, Repr

/-- A raw DOCX table: the grid of cell texts (`table.rows`, each row its
cells' texts) and the chain of preceding sibling elements
(`table._element.getprevious()` repeatedly), nearest first. -/
structure RawTable where
  rows : List (List String)
  preceding : List Block
deriving DecidableEq, Repr

/-- The structured table produced by `process_table`. -/
structure Table where
  context : String
  headers : List String
  rows : List Dict
deriving DecidableEq, Repr

/-- The value returned by `process_docx`. -/
structure StructuredDocument where
  sections : List Section
  tables : List Table
deriving DecidableEq, Repr

/-- A parsed DOCX document: its paragraphs and its tables. -/
structure DocxDocument where
  paragraphs : List Para
  tables : List RawTable
deriving DecidableEq, Repr

/-- The section-break test of `process_docx`:
`para.style.name.startswith('Heading') or (para.runs and para.runs[0].bold)`. -/
def isSectionBreak (p : Para) : Bool :=
  pyStartsWith p.style_name "Heading" ||
    (match p.runs_bold with
     | [] => false
     | b :: _ => b)

/-- The loop state of `process_docx`: `current_section` and `text_content`. -/
structure SplitState where
  current : Section
  out : List Section
deriving DecidableEq, Repr

/-- One iteration of the paragraph loop of `process_docx` (lines 96-108). -/
def para_step (st : SplitState) (p : Para) : SplitState :=
  let text := pyStrip p.text
  if text = "" then st
  else if isSectionBreak p then
    { current := { title := text, content := [], subsections := some [] },
      out := if st.current.content ≠ [] then st.out ++ [st.current] else st.out }
  else
    { st with current := { st.current with content := st.current.content ++ [text] } }

/-- The initial loop state: `{"title": "Introduction", "content": []}`
(note: no `subsections` key) and an empty `text_content`. -/
def initialState : SplitState :=
  { current := { title := "Introduction", content := [], subsections := none },
    out := [] }

/-- The section-splitting part of `process_docx` (lines 93-111): run the
paragraph loop, then emit the final accumulator if its content is non-empty. -/
def process_docx_sections (paras : List Para) : List Section :=
  let st := paras.foldl para_step initialState
  if st.current.content ≠ [] then st.out ++ [st.current] else st.out

/-- The `while` loop of `get_table_context` (lines 137-142): walk the
preceding siblings nearest-first while their tag ends in `p`, collecting the
non-empty stripped texts in visit order. -/
def collectContext : List Block → List String
  | [] => []
  | b :: bs =>
    if pyEndsWith b.tag "p" then
      if pyStrip b.text = "" then collectContext bs
      else pyStrip b.text :: collectContext bs
    else []

/-- `get_table_context` (lines 134-143): `"\n".join(reversed(context))` when
`context` is non-empty, else `""`. -/
def get_table_context (blocks : List Block) : String :=
  let context := collectContext blocks
  if context = [] then "" else join_sep "\n" context.reverse

/-- The row dict comprehension of `process_table`
(`{headers[i]: cell.text.strip() for i, cell in enumerate(row.cells)}`):
walk the cells with their index, inserting `headers[i] ↦ strip(cell)`;
an index beyond `len(headers)` raises `IndexError`, modelled as `none`. -/
def buildRowGo : Dict → List String → List String → Option Dict
  | acc, _, [] => some acc
  | _, [], _ :: _ => none
  | acc, h :: hs, c :: cs => buildRowGo (dictInsert acc h (pyStrip c)) hs cs

/-- Build one row dict from the header list and a raw row's cell texts. -/
def buildRow (headers cells : List String) : Option Dict :=
  buildRowGo [] headers cells

/-- Collect a list of `Option`s, failing if any member fails (an exception
in any iteration of a comprehension aborts the whole computation). -/
def sequenceOpt {α : Type} : List (Option α) → Option (List α)
  | [] => some []
  | none :: _ => none
  | some a :: rest => (sequenceOpt rest).map (a :: ·)

/-- `process_table` (lines 121-132): headers from the stripped cells of
`table.rows[0]` (an empty table raises `IndexError`, modelled as `none`),
one dict per subsequent row, plus the recovered context. -/
def process_table (t : RawTable) : Option Table :=
  match t.rows with
  | [] => none
  | r0 :: rest =>
    let headers := r0.map pyStrip
    (sequenceOpt (rest.map (buildRow headers))).map
      (fun rs => { context := get_table_context t.preceding,
                   headers := headers, rows := rs })

/-- `process_docx` (lines 88-119): split the paragraphs into sections and
normalize every table; any exception is caught by the blanket handler, which
reports and stops with no value (modelled as `none`). -/
def process_docx (doc : DocxDocument) : Option StructuredDocument :=
  (sequenceOpt (doc.tables.map process_table)).map
    (fun ts => { sections := process_docx_sections doc.paragraphs, tables := ts })

/-- `table_to_markdown` (lines 247-259): header row, separator row, then one
grid row per row dict, each cell rendered via `row.get(h, '')`. -/
def table_to_markdown (t : Table) : String :=
  let md := "| " ++ join_sep " | " t.headers ++ " |\n"
  let md := md ++ ("| " ++ join_sep " | " (List.replicate t.headers.length "---") ++ " |\n")
  t.rows.foldl
    (fun md row =>
      md ++ ("| " ++ join_sep " | " (t.headers.map (fun h => dictGet row h "")) ++ " |\n"))
    md

/-- Split a character list at every occurrence of `sep` (the pieces do not
contain `sep`; `n` occurrences give `n + 1` pieces). -/
def splitCharList (sep : Char) : List Char → List (List Char)
  | [] => [[]]
  | c :: cs =>
    if c = sep then [] :: splitCharList sep cs
    else
      match splitCharList sep cs with
      | [] => [[c]]
      | p :: ps => (c :: p) :: ps

/-- Modelled from the spec (§8, claim on serializer round-trip): the
"would-be-re-parse" of the markdown grid splits the rendering into rows on
newline, keeping the non-empty lines. -/
def reparse_lines (md : String) : List (List Char) :=
  (splitCharList '\n' md.data).filter (· ≠ [])

/-- Modelled from the spec: re-parse one grid line into cells by splitting
on the delimiter `|`, discarding the empty pieces outside the outer bars and
trimming each cell. -/
def reparse_cells (line : List Char) : List String :=
  (((splitCharList '|' line).drop 1).dropLast).map (fun cs => String.mk (pyStripList cs))

/-- Modelled from the spec: the header set of a re-parsed grid comes from
its first line. -/
def reparse_headers (md : String) : List String :=
  reparse_cells ((reparse_lines md).headD [])

/-- Modelled from the spec: the re-parsed data rows are the grid lines other
than the header row and the separator row. -/
def reparse_data_row_count (md : String) : Nat :=
  (reparse_lines md).length - 2

/-- The value of the last pair of `pairs` whose label is `k`, if any. -/
def lastValue (pairs : List (String × String)) (k : String) : Option String :=
  (pairs.reverse.find? (fun p => p.1 = k)).map Prod.snd

/-! ### Dictionary lemmas -/

theorem dictFind?_dictInsert (d : Dict) (k h v : String) :
    dictFind? (dictInsert d h v) k = if k = h then some v else dictFind? d k := by
  induction d with
  | nil =>
    by_cases hk : k = h
    · simp [dictFind?, dictInsert, List.find?, hk]
    · simp [dictFind?, dictInsert, List.find?, hk, Ne.symm hk]
  | cons p rest ih =>
    obtain ⟨k', v'⟩ := p
    by_cases hkh : k' = h
    · subst hkh
      by_cases hk : k = k'
      · simp [dictFind?, dictInsert, List.find?, hk]
      · simp [dictFind?, dictInsert, List.find?, hk, Ne.symm hk]
    · by_cases hk : k = k'
      · subst hk
        have : ¬ k = h := fun hh => hkh (hh ▸ rfl) |>.elim
        simp [dictFind?, dictInsert, hkh, List.find?, this]
      · have h1 : ¬ k' = k := fun hh => hk (hh ▸ rfl) |>.elim
        simp only [dictInsert, if_neg hkh]
        simp only [dictFind?, List.find?, h1, decide_eq_true_eq, if_neg h1,
          decide_eq_false h1] at ih ⊢
        exact ih

theorem dictInsert_fresh (d : Dict) (k v : String) (h : k ∉ d.map Prod.fst) :
    dictInsert d k v = d ++ [(k, v)] := by
  induction d with
  | nil => rfl
  | cons p rest ih =>
    simp only [List.map_cons, List.mem_cons] at h
    push_neg at h
    simp [dictInsert, fun hh : p.1 = k => h.1 hh.symm, ih h.2]
    intro hh
    exact absurd hh.symm h.1

theorem foldl_dictInsert_fresh (pairs : List (String × String)) :
    ∀ d : Dict, (pairs.map Prod.fst).Nodup →
      (∀ k ∈ pairs.map Prod.fst, k ∉ d.map Prod.fst) →
      List.foldl (fun d p => dictInsert d p.1 p.2) d pairs = d ++ pairs := by
  induction pairs with
  | nil => intro d _ _; simp
  | cons p rest ih =>
    intro d hnd hdisj
    simp only [List.map_cons, List.nodup_cons] at hnd
    have hp : p.1 ∉ d.map Prod.fst := hdisj p.1 (by simp)
    have step : dictInsert d p.1 p.2 = d ++ [p] := by
      rw [dictInsert_fresh d p.1 p.2 hp]
    simp only [List.foldl_cons, step]
    rw [ih (d ++ [p]) hnd.2]
    · simp
    · intro k hk
      simp only [List.map_append, List.mem_append, List.map_cons, List.map_nil]
      push_neg
      refine ⟨fun hkd => hdisj k (by simp [hk]) hkd, ?_⟩
      simp only [List.mem_singleton]
      intro hkp
      exact hnd.1 (hkp ▸ hk)

theorem lastValue_foldl_dictInsert (pairs : List (String × String)) :
    ∀ (d : Dict) (k : String),
      dictFind? (List.foldl (fun d p => dictInsert d p.1 p.2) d pairs) k =
        (lastValue pairs k).orElse (fun _ => dictFind? d k) := by
  induction pairs with
  | nil => intro d k; simp [lastValue]
  | cons p rest ih =>
    intro d k
    simp only [List.foldl_cons]
    rw [ih]
    simp only [lastValue, List.reverse_cons, List.find?_append]
    cases hrest : rest.reverse.find? (fun q => q.1 = k) with
    | some q => simp [Option.orElse, hrest]
    | none =>
      rw [dictFind?_dictInsert]
      by_cases hk : k = p.1
      · simp [List.find?, hk, Option.orElse]
      · have h2 : ¬ p.1 = k := fun hh => hk (hh ▸ rfl) |>.elim
        simp [List.find?, h2, hk, Option.orElse]

/-! ### Row construction lemmas -/

theorem buildRowGo_of_le (cells : List String) :
    ∀ (headers : List String) (acc : Dict), cells.length ≤ headers.length →
      buildRowGo acc headers cells =
        some (List.foldl (fun d p => dictInsert d p.1 p.2) acc
          (headers.zip (cells.map pyStrip))) := by
  induction cells with
  | nil => intro headers acc _; simp [buildRowGo]
  | cons c cs ih =>
    intro headers acc hle
    cases headers with
    | nil => simp at hle
    | cons h hs =>
      simp only [List.length_cons, Nat.add_le_add_iff_right] at hle
      simp [buildRowGo, List.zip_cons_cons, ih hs _ hle]

theorem buildRowGo_of_lt (cells : List String) :
    ∀ (headers : List String) (acc : Dict), headers.length < cells.length →
      buildRowGo acc headers cells = none := by
  induction cells with
  | nil => intro headers acc hlt; simp at hlt
  | cons c cs ih =>
    intro headers acc hlt
    cases headers with
    | nil => rfl
    | cons h hs =>
      simp only [List.length_cons, Nat.add_lt_add_iff_right] at hlt
      simp [buildRowGo, ih hs _ hlt]

theorem map_fst_zip_take {α β : Type} (a : List α) :
    ∀ b : List β, (a.zip b).map Prod.fst = a.take b.length := by
  induction a with
  | nil => intro b; simp
  | cons x xs ih => intro b; cases b <;> simp [ih]

/-! ### Claim C1 -/

/-- C1 counterexample: on the table `[["Test","Specimen"],["Sodium"]]` (header
count `H = 2`, one raw row with a single cell) the constructed `Row` has one
entry, not two, and the missing trailing cell is not mapped to the empty
string — the key `"Specimen"` is absent.  Moreover on `[["A"],["x","y"]]`
(cells beyond position `H = 1`) `process_table` raises an error (modelled as
`none`) instead of dropping the extra cell. -/
theorem process_table_row_shape_counterexample :
    process_table ⟨[["Test", "Specimen"], ["Sodium"]], []⟩ =
      some ⟨"", ["Test", "Specimen"], [[("Test", "Sodium")]]⟩ ∧
    ([("Test", "Sodium")] : Dict).length = 1 ∧
    dictFind? [("Test", "Sodium")] "Specimen" = none ∧
    process_table ⟨[["A"], ["x", "y"]], []⟩ = none := by
  decide

/-- C1 (amended): with pairwise-distinct header labels, a raw row with at
most as many cells as there are headers yields a `Row` that is exactly the
position-wise zip of headers with stripped cells — so it has one entry per
raw cell (missing trailing cells are simply absent, not mapped to the empty
string), and a raw row with more cells than headers is an index error
(modelled as `none`), not a silent drop. -/
theorem buildRow_shape (headers cells : List String) (hnd : headers.Nodup) :
    (cells.length ≤ headers.length →
      buildRow headers cells = some (headers.zip (cells.map pyStrip))) ∧
    (headers.length < cells.length → buildRow headers cells = none) := by
  constructor
  · intro hle
    rw [buildRow, buildRowGo_of_le cells headers [] hle]
    congr 1
    have hkeys : ((headers.zip (cells.map pyStrip)).map Prod.fst).Nodup := by
      rw [map_fst_zip_take]
      exact List.Nodup.sublist (List.take_sublist _ _) hnd
    rw [foldl_dictInsert_fresh _ [] hkeys (by intro k _ hk; simp at hk)]
    simp
  · intro hlt
    exact buildRowGo_of_lt cells headers [] hlt

/-- C1 amended witness at a concrete input. -/
theorem buildRow_shape_witness :
    buildRow ["Test", "Specimen"] ["Sodium"] =
      some (["Test", "Specimen"].zip (["Sodium"].map pyStrip)) ∧
    buildRow ["A"] ["x", "y"] = none :=
  ⟨(buildRow_shape ["Test", "Specimen"] ["Sodium"] (by decide)).1 (by decide),
   (buildRow_shape ["A"] ["x", "y"] (by decide)).2 (by decide)⟩

/-! ### Claim C2 -/

theorem sequenceOpt_of_mem_none {α : Type} (l : List (Option α)) (h : none ∈ l) :
    sequenceOpt l = none := by
  induction l with
  | nil => simp at h
  | cons o rest ih =>
    cases o with
    | none => rfl
    | some a =>
      rcases List.mem_cons.mp h with h1 | h2
      · exact Option.noConfusion h1
      · simp [sequenceOpt, ih h2]

/-- C2: a table whose raw row sequence is empty makes the table normalizer
signal an error (the spec's `MalformedTableError`, realized as the
`IndexError` of `table.rows[0]` and modelled as `none`), and any document
containing such a table yields no structured document at all — structuring
aborts with no partial model. -/
theorem process_table_empty_rows_aborts (t : RawTable) (h : t.rows = []) :
    process_table t = none ∧
    ∀ doc : DocxDocument, t ∈ doc.tables → process_docx doc = none := by
  constructor
  · rw [process_table, h]
  · intro doc hmem
    have hnone : none ∈ doc.tables.map process_table := by
      have := List.mem_map_of_mem process_table hmem
      rwa [(by rw [process_table, h] : process_table t = none)] at this
    rw [process_docx, sequenceOpt_of_mem_none _ hnone]
    rfl

/-- C2 witness at a concrete input. -/
theorem process_table_empty_rows_aborts_witness :
    process_table ⟨[], []⟩ = none ∧ process_docx ⟨[], [⟨[], []⟩]⟩ = none :=
  ⟨(process_table_empty_rows_aborts ⟨[], []⟩ rfl).1,
   (process_table_empty_rows_aborts ⟨[], []⟩ rfl).2 ⟨[], [⟨[], []⟩]⟩ (by decide)⟩

/-! ### Claim C3 -/

/-- C3: the section splitter starts a new section at each heading/emphasized
paragraph (emitting the accumulator first iff its content is non-empty),
titles the new section with that paragraph's text, appends other non-empty
paragraph texts to the current content, and defaults the first title to
"Introduction"; on the spec's example input it yields exactly the two
sections (Introduction, [Welcome.]) and (Specimen Handling, [Keep cold.]). -/
theorem process_docx_sections_example :
    process_docx_sections
      [⟨"Introduction", "Heading 1", []⟩, ⟨"Welcome.", "Normal", [false]⟩,
       ⟨"Specimen Handling", "Heading 1", []⟩, ⟨"Keep cold.", "Normal", [false]⟩] =
      [⟨"Introduction", ["Welcome."], some []⟩,
       ⟨"Specimen Handling", ["Keep cold."], some []⟩] := by
  decide

/-! ### Claim C6 -/

/-- C6 counterexample: with the duplicated header `"X"` and the raw row
`["a", "b"]`, the constructed `Row` maps `"X"` to `"b"`, the text of the
LAST column bearing that label, not the first column's `"a"`. -/
theorem process_table_duplicate_header_counterexample :
    process_table ⟨[["X", "X"], ["a", "b"]], []⟩ =
      some ⟨"", ["X", "X"], [[("X", "b")]]⟩ ∧
    dictGet [("X", "b")] "X" "" = "b" ∧ ("b" : String) ≠ "a" := by
  decide

/-- C6 (amended): a duplicated header label is mapped, in each constructed
`Row`, to the cell text of the LAST column bearing that label (later
assignments to the same key overwrite earlier ones); earlier columns with
the same label are not addressable by it. -/
theorem buildRow_duplicate_header_last_wins (headers cells : List String)
    (d : Dict) (k : String) (h : buildRow headers cells = some d) :
    dictFind? d k = lastValue (headers.zip (cells.map pyStrip)) k := by
  have hle : cells.length ≤ headers.length := by
    by_contra hgt
    push_neg at hgt
    rw [buildRow, buildRowGo_of_lt cells headers [] hgt] at h
    exact absurd h (by simp)
  rw [buildRow, buildRowGo_of_le cells headers [] hle] at h
  have hd : d = List.foldl (fun d p => dictInsert d p.1 p.2) []
      (headers.zip (cells.map pyStrip)) := by
    injection h with h'
    exact h'.symm
  rw [hd, lastValue_foldl_dictInsert]
  cases lastValue (headers.zip (cells.map pyStrip)) k <;> simp [Option.orElse, dictFind?]

/-- C6 amended witness at a concrete input. -/
theorem buildRow_duplicate_header_last_wins_witness :
    dictFind? [("X", "b")] "X" =
      lastValue (["X", "X"].zip (["a", "b"].map pyStrip)) "X" :=
  buildRow_duplicate_header_last_wins ["X", "X"] ["a", "b"] [("X", "b")] "X" (by decide)

/-! ### Section splitter lemmas -/

theorem foldl_para_step_preserve {P : SplitState → Prop}
    (hstep : ∀ st p, P st → P (para_step st p)) (paras : List Para) :
    ∀ st, P st → P (paras.foldl para_step st) := by
  induction paras with
  | nil => intro st h; exact h
  | cons p ps ih => intro st h; exact ih _ (hstep st p h)

theorem para_step_out_content (st : SplitState) (p : Para)
    (h : ∀ s ∈ st.out, s.content ≠ []) :
    ∀ s ∈ (para_step st p).out, s.content ≠ [] := by
  intro s hs
  by_cases h1 : pyStrip p.text = ""
  · exact h s (by simpa [para_step, h1] using hs)
  · by_cases h2 : isSectionBreak p = true
    · by_cases h3 : st.current.content = []
      · exact h s (by simpa [para_step, h1, h2, h3] using hs)
      · simp only [para_step, if_neg h1, h2, if_true, h3, ne_eq,
          not_false_iff, if_pos] at hs
        rcases List.mem_append.mp hs with hmem | hmem
        · exact h s hmem
        · rw [List.mem_singleton.mp hmem]; exact h3
    · exact h s (by simpa [para_step, h1, h2] using hs)

/-- Shared helper: every section emitted by the splitter has non-empty
content (both emit sites are guarded by the non-empty-content check). -/
theorem sections_content_nonempty (paras : List Para) :
    ∀ s ∈ process_docx_sections paras, s.content ≠ [] := by
  intro s hs
  rw [process_docx_sections] at hs
  have hout : ∀ s ∈ (paras.foldl para_step initialState).out, s.content ≠ [] :=
    foldl_para_step_preserve para_step_out_content paras initialState (by simp [initialState])
  by_cases h3 : (paras.foldl para_step initialState).current.content = []
  · exact hout s (by simpa [h3] using hs)
  · simp only [ne_eq, h3, not_false_iff, if_pos] at hs
    rcases List.mem_append.mp hs with hmem | hmem
    · exact hout s hmem
    · rw [List.mem_singleton.mp hmem]; exact h3

/-! ### Claim C9 -/

/-- C9: for every input paragraph sequence, every section in the output of
the splitter has a non-empty content sequence — no empty-content section is
ever emitted. -/
theorem process_docx_sections_no_empty_content (paras : List Para) (s : Section)
    (hs : s ∈ process_docx_sections paras) : s.content ≠ [] :=
  sections_content_nonempty paras s hs

/-- C9 witness at a concrete input. -/
theorem process_docx_sections_no_empty_content_witness :
    (⟨"Introduction", ["hello"], none⟩ : Section).content ≠ [] :=
  process_docx_sections_no_empty_content [⟨"hello", "Normal", []⟩]
    ⟨"Introduction", ["hello"], none⟩ (by decide)

/-! ### Claim C4 -/

theorem para_step_break_break (st : SplitState) (h1 h2 : Para)
    (hb1 : pyStrip h1.text ≠ "") (hb1b : isSectionBreak h1 = true)
    (hb2 : pyStrip h2.text ≠ "") (hb2b : isSectionBreak h2 = true) :
    para_step (para_step st h1) h2 = para_step st h2 := by
  simp [para_step, hb1, hb1b, hb2, hb2b]

/-- C4: whenever a heading/emphasized paragraph is immediately followed by
another, the first one contributes nothing to the output — the sections are
exactly those of the sequence with the first heading deleted (its title is
lost) — and every section that does appear has non-empty content. -/
theorem consecutive_heading_dropped (pre post : List Para) (h1 h2 : Para)
    (hb1 : pyStrip h1.text ≠ "" ∧ isSectionBreak h1 = true)
    (hb2 : pyStrip h2.text ≠ "" ∧ isSectionBreak h2 = true) :
    process_docx_sections (pre ++ h1 :: h2 :: post) =
      process_docx_sections (pre ++ h2 :: post) ∧
    ∀ s ∈ process_docx_sections (pre ++ h1 :: h2 :: post), s.content ≠ [] := by
  refine ⟨?_, sections_content_nonempty _⟩
  rw [process_docx_sections, process_docx_sections,
    List.foldl_append, List.foldl_append]
  simp only [List.foldl_cons]
  rw [para_step_break_break _ h1 h2 hb1.1 hb1.2 hb2.1 hb2.2]

/-- C4 witness at a concrete input. -/
theorem consecutive_heading_dropped_witness :
    (process_docx_sections
        [⟨"Lost Title", "Heading 1", []⟩, ⟨"Kept", "Heading 1", []⟩,
         ⟨"body", "Normal", []⟩] =
      process_docx_sections [⟨"Kept", "Heading 1", []⟩, ⟨"body", "Normal", []⟩]) ∧
    (⟨"Kept", ["body"], some []⟩ : Section).content ≠ [] :=
  ⟨(consecutive_heading_dropped [] [⟨"body", "Normal", []⟩]
      ⟨"Lost Title", "Heading 1", []⟩ ⟨"Kept", "Heading 1", []⟩
      ⟨by decide, by decide⟩ ⟨by decide, by decide⟩).1,
   (consecutive_heading_dropped [] [⟨"body", "Normal", []⟩]
      ⟨"Lost Title", "Heading 1", []⟩ ⟨"Kept", "Heading 1", []⟩
      ⟨by decide, by decide⟩ ⟨by decide, by decide⟩).2
     ⟨"Kept", ["body"], some []⟩ (by decide)⟩

/-! ### Claim C10 -/

theorem para_step_shape (st : SplitState) (p : Para)
    (h : ((st.current.subsections = none → st.current.title = "Introduction") ∧
            (st.current.subsections = none ∨ st.current.subsections = some [])) ∧
          ∀ s ∈ st.out,
            (s.subsections = none → s.title = "Introduction") ∧
            (s.subsections = none ∨ s.subsections = some [])) :
    ((((para_step st p).current.subsections = none →
          (para_step st p).current.title = "Introduction") ∧
        ((para_step st p).current.subsections = none ∨
          (para_step st p).current.subsections = some [])) ∧
      ∀ s ∈ (para_step st p).out,
        (s.subsections = none → s.title = "Introduction") ∧
        (s.subsections = none ∨ s.subsections = some [])) := by
  by_cases h1 : pyStrip p.text = ""
  · simpa [para_step, h1] using h
  · by_cases h2 : isSectionBreak p = true
    · refine ⟨by simp [para_step, h1, h2], ?_⟩
      intro s hs
      by_cases h3 : st.current.content = []
      · exact h.2 s (by simpa [para_step, h1, h2, h3] using hs)
      · simp only [para_step, if_neg h1, h2, if_true, h3, ne_eq,
          not_false_iff, if_pos] at hs
        rcases List.mem_append.mp hs with hmem | hmem
        · exact h.2 s hmem
        · rw [List.mem_singleton.mp hmem]; exact h.1
    · refine ⟨?_, ?_⟩
      · simpa [para_step, h1, h2] using h.1
      · intro s hs
        exact h.2 s (by simpa [para_step, h1, h2] using hs)

/-- C10: the two kinds of emitted sections have different shapes — a section
carrying no `subsections` key can only be the default first section titled
"Introduction", every other emitted section carries `subsections = []` — and
on a concrete document both shapes occur side by side in the output. -/
theorem section_shapes (paras : List Para) :
    (∀ s ∈ process_docx_sections paras,
      (s.subsections = none → s.title = "Introduction") ∧
      (s.subsections = none ∨ s.subsections = some [])) ∧
    process_docx_sections
        [⟨"Hello.", "Normal", []⟩, ⟨"Storage", "Heading 1", []⟩,
         ⟨"Cold.", "Normal", []⟩] =
      [⟨"Introduction", ["Hello."], none⟩, ⟨"Storage", ["Cold."], some []⟩] := by
  constructor
  · intro s hs
    rw [process_docx_sections] at hs
    have hinv := foldl_para_step_preserve (P := fun st =>
        ((st.current.subsections = none → st.current.title = "Introduction") ∧
          (st.current.subsections = none ∨ st.current.subsections = some [])) ∧
        ∀ s ∈ st.out,
          (s.subsections = none → s.title = "Introduction") ∧
          (s.subsections = none ∨ s.subsections = some []))
      para_step_shape paras initialState (by simp [initialState])
    by_cases h3 : (paras.foldl para_step initialState).current.content = []
    · exact hinv.2 s (by simpa [h3] using hs)
    · simp only [ne_eq, h3, not_false_iff, if_pos] at hs
      rcases List.mem_append.mp hs with hmem | hmem
      · exact hinv.2 s hmem
      · rw [List.mem_singleton.mp hmem]; exact hinv.1
  · decide

/-- C10 witness at a concrete input. -/
theorem section_shapes_witness :
    ((⟨"Introduction", ["Hello."], none⟩ : Section).subsections = none →
      (⟨"Introduction", ["Hello."], none⟩ : Section).title = "Introduction") ∧
    ((⟨"Introduction", ["Hello."], none⟩ : Section).subsections = none ∨
      (⟨"Introduction", ["Hello."], none⟩ : Section).subsections = some []) :=
  (section_shapes
      [⟨"Hello.", "Normal", []⟩, ⟨"Storage", "Heading 1", []⟩,
       ⟨"Cold.", "Normal", []⟩]).1
    ⟨"Introduction", ["Hello."], none⟩ (by decide)

/-! ### Claim C5 -/

theorem collectContext_eq (blocks : List Block) :
    collectContext blocks =
      ((blocks.takeWhile (fun b => pyEndsWith b.tag "p")).map
        (fun b => pyStrip b.text)).filter (fun t => t ≠ "") := by
  induction blocks with
  | nil => rfl
  | cons b bs ih =>
    by_cases hp : pyEndsWith b.tag "p" = true
    · by_cases he : pyStrip b.text = "" <;>
        simp [collectContext, List.takeWhile_cons, hp, List.filter_cons, he, ih]
    · simp [collectContext, List.takeWhile_cons, hp]

/-- C5: caption recovery walks the preceding blocks nearest-first, collects
every non-empty stripped text fragment, stops at the first element whose tag
is not paragraph-like, reverses the collected fragments into reading order
and joins them with newline; and when nothing is collected the caption is
the empty string, not an error. -/
theorem get_table_context_spec (blocks : List Block) :
    get_table_context blocks =
      join_sep "\n"
        (((blocks.takeWhile (fun b => pyEndsWith b.tag "p")).map
            (fun b => pyStrip b.text)).filter (fun t => t ≠ "")).reverse ∧
    (collectContext blocks = [] → get_table_context blocks = "") := by
  constructor
  · rw [get_table_context, ← collectContext_eq]
    by_cases h : collectContext blocks = []
    · simp [h, join_sep]
    · simp [h]
  · intro h
    simp [get_table_context, h]

/-- C5 witness at a concrete input. -/
theorem get_table_context_spec_witness :
    (get_table_context [] =
      join_sep "\n"
        ((((List.nil (α := Block)).takeWhile (fun b => pyEndsWith b.tag "p")).map
            (fun b => pyStrip b.text)).filter (fun t => t ≠ "")).reverse) ∧
    get_table_context [] = "" :=
  ⟨(get_table_context_spec []).1, (get_table_context_spec []).2 rfl⟩

/-! ### Serializer lemmas -/

/-- One line of the markdown grid, without its trailing newline. -/
def grid_line (cells : List String) : String :=
  "| " ++ join_sep " | " cells ++ " |"

/-- The lines of the markdown grid of a table: header row, separator row,
then one row per row dict. -/
def grid_lines (t : Table) : List String :=
  grid_line t.headers ::
    grid_line (List.replicate t.headers.length "---") ::
    t.rows.map (fun row => grid_line (t.headers.map (fun h => dictGet row h "")))

/-- Concatenate lines, terminating each with a newline. -/
def joined_lines : List String → String
  | [] => ""
  | l :: ls => (l ++ "\n") ++ joined_lines ls

theorem string_append_assoc (a b c : String) : a ++ b ++ c = a ++ (b ++ c) := by
  cases a; cases b; cases c
  simp [String.ext_iff, String.data_append, List.append_assoc]

theorem string_append_empty (a : String) : a ++ "" = a := by
  cases a
  simp [String.ext_iff, String.data_append]

theorem foldl_append_joined {α : Type} (g : α → String) (l : List α) :
    ∀ s : String, l.foldl (fun md x => md ++ (g x ++ "\n")) s =
      s ++ joined_lines (l.map g) := by
  induction l with
  | nil => intro s; simp [joined_lines, string_append_empty]
  | cons x xs ih =>
    intro s
    simp only [List.foldl_cons, List.map_cons, joined_lines, ih,
      string_append_assoc]

theorem table_to_markdown_eq_joined (t : Table) :
    table_to_markdown t = joined_lines (grid_lines t) := by
  rw [table_to_markdown, grid_lines]
  show t.rows.foldl _ _ = _
  have h1 : ("| " ++ join_sep " | " t.headers ++ " |\n") ++
        ("| " ++ join_sep " | " (List.replicate t.headers.length "---") ++ " |\n") =
      (grid_line t.headers ++ "\n") ++
        ((grid_line (List.replicate t.headers.length "---") ++ "\n") ++ "") := by
    simp [grid_line, String.ext_iff, String.data_append, List.append_assoc]
  have h2 : ∀ row, ("| " ++ join_sep " | "
        (t.headers.map (fun h => dictGet row h "")) ++ " |\n") =
      (grid_line (t.headers.map (fun h => dictGet row h "")) ++ "\n") := by
    intro row
    simp [grid_line, String.ext_iff, String.data_append, List.append_assoc]
  calc t.rows.foldl (fun md row => md ++ ("| " ++ join_sep " | "
            (t.headers.map (fun h => dictGet row h "")) ++ " |\n")) _ =
      t.rows.foldl (fun md row => md ++
          ((grid_line (t.headers.map (fun h => dictGet row h ""))) ++ "\n")) _ := by
        rw [h1]
        congr 1
        funext md row
        rw [← h2 row, string_append_assoc]
    _ = _ := by
        rw [foldl_append_joined]
        simp [joined_lines, string_append_empty, string_append_assoc]

/-! ### Character-level split/join lemmas for the grid re-parse -/

theorem splitCharList_append (sep : Char) (xs ys : List Char) (h : sep ∉ xs) :
    splitCharList sep (xs ++ sep :: ys) = xs :: splitCharList sep ys := by
  induction xs with
  | nil => simp [splitCharList]
  | cons c cs ih =>
    simp only [List.mem_cons, not_or] at h
    have hc : ¬ c = sep := fun hh => h.1 hh.symm
    simp only [List.cons_append, splitCharList, List.append_eq, if_neg hc, ih h.2]

/-- Join lines with a terminating newline after each, at character level. -/
def joinNL : List (List Char) → List Char
  | [] => []
  | l :: ls => l ++ '\n' :: joinNL ls

theorem splitCharList_joinNL (ls : List (List Char)) (h : ∀ l ∈ ls, '\n' ∉ l) :
    splitCharList '\n' (joinNL ls) = ls ++ [[]] := by
  induction ls with
  | nil => rfl
  | cons l ls ih =>
    rw [joinNL, splitCharList_append '\n' l (joinNL ls) (h l (by simp)),
      ih (fun x hx => h x (by simp [hx]))]
    rfl

theorem joined_lines_data (ls : List String) :
    (joined_lines ls).data = joinNL (ls.map String.data) := by
  induction ls with
  | nil => rfl
  | cons l ls ih =>
    simp [joined_lines, joinNL, String.data_append, ih]

theorem isPySpace_space : isPySpace ' ' = true := rfl

theorem pyStripList_cons_space (c : Char) (xs : List Char) (hc : isPySpace c = true) :
    pyStripList (c :: xs) = pyStripList xs := by
  simp [pyStripList, List.dropWhile_cons, hc]

theorem pyStripList_concat_space (xs : List Char) :
    pyStripList (xs ++ [' ']) = pyStripList xs := by
  induction xs with
  | nil => rfl
  | cons c cs ih =>
    by_cases hc : isPySpace c = true
    · rw [List.cons_append, pyStripList_cons_space c _ hc,
        pyStripList_cons_space c _ hc, ih]
    · have hc' : isPySpace c = false := by
        cases h : isPySpace c
        · rfl
        · exact absurd h hc
      rw [List.cons_append]
      simp only [pyStripList, List.dropWhile_cons, hc', Bool.false_eq_true,
        if_false, List.reverse_cons, List.reverse_append]
      simp [List.dropWhile_cons, isPySpace_space]

theorem pyStripList_pad (xs : List Char) :
    pyStripList ((' ' :: xs) ++ [' ']) = pyStripList xs := by
  rw [List.cons_append, pyStripList_cons_space ' ' _ isPySpace_space,
    pyStripList_concat_space]

theorem mem_join_sep_data (sep : String) (l : List String) (c : Char)
    (h : c ∈ (join_sep sep l).data) : (∃ s ∈ l, c ∈ s.data) ∨ c ∈ sep.data := by
  induction l with
  | nil => exact absurd h (by simp [join_sep])
  | cons s tail ih =>
    cases tail with
    | nil => exact Or.inl ⟨s, by simp, by simpa [join_sep] using h⟩
    | cons s2 rest =>
      have hunf : join_sep sep (s :: s2 :: rest) =
          s ++ (sep ++ join_sep sep (s2 :: rest)) := rfl
      rw [hunf, String.data_append, String.data_append] at h
      rcases List.mem_append.mp h with h1 | h2
      · exact Or.inl ⟨s, by simp, h1⟩
      · rcases List.mem_append.mp h2 with h3 | h4
        · exact Or.inr h3
        · rcases ih h4 with ⟨x, hx, hcx⟩ | hsep
          · exact Or.inl ⟨x, by simp [hx], hcx⟩
          · exact Or.inr hsep

theorem grid_line_data (cells : List String) :
    (grid_line cells).data =
      '|' :: ' ' :: ((join_sep " | " cells).data ++ [' ', '|']) := by
  simp [grid_line, String.data_append]

theorem grid_line_data_ne_nil (cells : List String) :
    (grid_line cells).data ≠ [] := by
  simp [grid_line_data]

theorem newline_not_mem_grid_line (cells : List String)
    (h : ∀ s ∈ cells, '\n' ∉ s.data) : '\n' ∉ (grid_line cells).data := by
  intro hmem
  rw [grid_line_data] at hmem
  simp only [List.mem_cons, List.mem_append] at hmem
  rcases hmem with h1 | h2 | h3 | h4
  · exact absurd h1 (by decide)
  · exact absurd h2 (by decide)
  · rcases mem_join_sep_data " | " cells '\n' h3 with ⟨s, hs, hcs⟩ | hsep
    · exact h s hs hcs
    · exact absurd hsep (by decide)
  · exact absurd h4 (by decide)

theorem splitCharList_mid (cells : List String) :
    cells ≠ [] → (∀ s ∈ cells, '|' ∉ s.data) →
    ∀ u : List Char,
      splitCharList '|' ((' ' :: (join_sep " | " cells).data ++ [' ']) ++ '|' :: u) =
        cells.map (fun s => ' ' :: s.data ++ [' ']) ++ splitCharList '|' u := by
  induction cells with
  | nil => intro hne; exact absurd rfl hne
  | cons s tail ih =>
    intro _ hp u
    have hpad : '|' ∉ ' ' :: s.data ++ [' '] := by
      intro hm
      rcases List.mem_cons.mp hm with h1 | h2
      · exact absurd h1 (by decide)
      · rcases List.mem_append.mp h2 with h3 | h4
        · exact hp s (by simp) h3
        · exact absurd h4 (by decide)
    cases tail with
    | nil =>
      have : (' ' :: (join_sep " | " [s]).data ++ [' ']) ++ '|' :: u =
          (' ' :: s.data ++ [' ']) ++ '|' :: u := by
        simp [join_sep]
      rw [this, splitCharList_append '|' _ u hpad]
      simp
    | cons s2 rest =>
      have hshape : (' ' :: (join_sep " | " (s :: s2 :: rest)).data ++ [' ']) ++ '|' :: u =
          (' ' :: s.data ++ [' ']) ++
            '|' :: ((' ' :: (join_sep " | " (s2 :: rest)).data ++ [' ']) ++ '|' :: u) := by
        have hunf : join_sep " | " (s :: s2 :: rest) =
            s ++ (" | " ++ join_sep " | " (s2 :: rest)) := rfl
        rw [hunf, String.data_append, String.data_append]
        simp
      rw [hshape, splitCharList_append '|' _ _ hpad,
        ih (by simp) (fun x hx => hp x (by simp [hx])) u]
      simp

theorem splitCharList_grid_line (cells : List String) (hne : cells ≠ [])
    (hp : ∀ s ∈ cells, '|' ∉ s.data) :
    splitCharList '|' ((grid_line cells).data) =
      [] :: (cells.map (fun s => ' ' :: s.data ++ [' ']) ++ [[]]) := by
  rw [grid_line_data]
  have hshape : ('|' :: ' ' :: ((join_sep " | " cells).data ++ [' ', '|']) : List Char) =
      '|' :: ((' ' :: (join_sep " | " cells).data ++ [' ']) ++ '|' :: []) := by
    simp
  rw [hshape]
  show splitCharList '|' ('|' :: _) = _
  rw [splitCharList]
  simp only [if_pos rfl]
  rw [splitCharList_mid cells hne hp []]
  rfl

theorem reparse_cells_grid_line (cells : List String) (hne : cells ≠ [])
    (hp : ∀ s ∈ cells, '|' ∉ s.data) (hs : ∀ s ∈ cells, pyStrip s = s) :
    reparse_cells ((grid_line cells).data) = cells := by
  rw [reparse_cells, splitCharList_grid_line cells hne hp]
  simp only [List.drop_one, List.tail_cons, List.dropLast_concat, List.map_map]
  have hfun : ∀ s ∈ cells,
      ((fun cs => String.mk (pyStripList cs)) ∘ fun s => ' ' :: s.data ++ [' ']) s =
        id s := by
    intro s hsm
    show String.mk (pyStripList ((' ' :: s.data) ++ [' '])) = s
    rw [pyStripList_pad]
    show pyStrip s = s
    exact hs s hsm
  rw [List.map_congr_left hfun, List.map_id]

theorem reparse_lines_joined (ls : List String)
    (hnl : ∀ l ∈ ls, '\n' ∉ l.data) (hne : ∀ l ∈ ls, l.data ≠ []) :
    reparse_lines (joined_lines ls) = ls.map String.data := by
  rw [reparse_lines, joined_lines_data,
    splitCharList_joinNL (ls.map String.data)
      (by intro l hl; rcases List.mem_map.mp hl with ⟨s, hs, rfl⟩; exact hnl s hs)]
  rw [List.filter_append]
  have h1 : (ls.map String.data).filter (fun l => l ≠ []) = ls.map String.data := by
    apply List.filter_eq_self.mpr
    intro a ha
    rcases List.mem_map.mp ha with ⟨s, hs, rfl⟩
    simpa using hne s hs
  have h2 : ([([] : List Char)]).filter (fun l => l ≠ []) = [] := rfl
  rw [h1, h2, List.append_nil]

/-! ### Claim C7 -/

/-- C7: the serializer is total on any table value — it emits exactly one
header row, one separator row, and one grid row per row dict, and each cell
is rendered via `row.get(header, "")`, so a header missing from a row's
mapping renders as the empty string rather than failing, whatever the
cell/header counts are. -/
theorem table_to_markdown_total (t : Table) :
    table_to_markdown t =
      joined_lines
        (grid_line t.headers ::
          grid_line (List.replicate t.headers.length "---") ::
          t.rows.map (fun row => grid_line (t.headers.map (fun h => dictGet row h "")))) ∧
    ∀ (row : Dict) (h : String), dictFind? row h = none → dictGet row h "" = "" := by
  refine ⟨table_to_markdown_eq_joined t, ?_⟩
  intro row h hnone
  rw [dictGet, hnone]
  rfl

/-- C7 witness at a concrete input. -/
theorem table_to_markdown_total_witness :
    (table_to_markdown ⟨"", ["h1", "h2"], [[("h1", "v")]]⟩ =
      joined_lines
        (grid_line ["h1", "h2"] ::
          grid_line (List.replicate (["h1", "h2"] : List String).length "---") ::
          ([[("h1", "v")]] : List Dict).map
            (fun row => grid_line ((["h1", "h2"] : List String).map
              (fun h => dictGet row h ""))))) ∧
    dictGet [("h1", "v")] "h2" "" = "" :=
  ⟨(table_to_markdown_total ⟨"", ["h1", "h2"], [[("h1", "v")]]⟩).1,
   (table_to_markdown_total ⟨"", ["h1", "h2"], [[("h1", "v")]]⟩).2
     [("h1", "v")] "h2" (by decide)⟩

/-! ### Claim C8 -/

/-- A string safe for the delimited grid: it contains neither the cell
delimiter nor a newline, and is already whitespace-trimmed (as every string
produced by the normalizer is). -/
def cleanStr (s : String) : Prop :=
  '|' ∉ s.data ∧ '\n' ∉ s.data ∧ pyStrip s = s

instance (s : String) : Decidable (cleanStr s) := by
  unfold cleanStr
  infer_instance

theorem cleanStr_empty : cleanStr "" := ⟨by decide, by decide, rfl⟩

theorem dictGet_cleanStr (row : Dict) (hrow : ∀ p ∈ row, cleanStr p.2)
    (h : String) : cleanStr (dictGet row h "") := by
  rw [dictGet]
  cases hf : dictFind? row h with
  | none => exact cleanStr_empty
  | some v =>
    rcases Option.map_eq_some'.mp hf with ⟨p, hp, rfl⟩
    exact hrow p (List.mem_of_find?_eq_some hp)

theorem grid_lines_no_newline (t : Table)
    (hh : ∀ s ∈ t.headers, cleanStr s)
    (hr : ∀ row ∈ t.rows, ∀ p ∈ row, cleanStr p.2) :
    ∀ l ∈ grid_lines t, '\n' ∉ l.data := by
  intro l hl
  rcases List.mem_cons.mp hl with rfl | hl2
  · exact newline_not_mem_grid_line _ (fun s hsm => (hh s hsm).2.1)
  rcases List.mem_cons.mp hl2 with rfl | hl3
  · exact newline_not_mem_grid_line _ (fun s hsm => by
      rw [(List.mem_replicate.mp hsm).2]; decide)
  rcases List.mem_map.mp hl3 with ⟨row, hrowm, rfl⟩
  exact newline_not_mem_grid_line _ (fun s hsm => by
    rcases List.mem_map.mp hsm with ⟨h, _, rfl⟩
    exact (dictGet_cleanStr row (hr row hrowm) h).2.1)

/-- C8 counterexample: the claim quantifies over every table value, but a
cell containing a newline breaks the row structure of the grid: the table
with headers `["h"]` and the single row `{"h": "a\nb"}` serializes to a grid
that re-parses to 2 data rows, not 1. -/
theorem serialize_reparse_counterexample :
    reparse_data_row_count (table_to_markdown ⟨"", ["h"], [[("h", "a\nb")]]⟩) = 2 ∧
    (⟨"", ["h"], [[("h", "a\nb")]]⟩ : Table).rows.length = 1 := by
  decide

/-- C8 (amended): for every table whose header list is non-empty and whose
headers and stored cell values contain neither the delimiter `|` nor a
newline and are whitespace-trimmed (all guaranteed for tables built by the
normalizer from such cell texts), serializing to the markdown grid and
re-parsing (splitting rows on newline and cells on the delimiter) recovers
exactly the header list (hence the same header set) and the same number of
data rows as the source table. -/
theorem serialize_reparse_roundtrip (t : Table)
    (hne : t.headers ≠ [])
    (hh : ∀ s ∈ t.headers, cleanStr s)
    (hr : ∀ row ∈ t.rows, ∀ p ∈ row, cleanStr p.2) :
    reparse_headers (table_to_markdown t) = t.headers ∧
    reparse_data_row_count (table_to_markdown t) = t.rows.length := by
  have hlines : reparse_lines (table_to_markdown t) = (grid_lines t).map String.data := by
    rw [table_to_markdown_eq_joined]
    exact reparse_lines_joined (grid_lines t) (grid_lines_no_newline t hh hr)
      (fun l hl => by
        rcases List.mem_cons.mp hl with rfl | hl2
        · exact grid_line_data_ne_nil _
        rcases List.mem_cons.mp hl2 with rfl | hl3
        · exact grid_line_data_ne_nil _
        rcases List.mem_map.mp hl3 with ⟨row, _, rfl⟩
        exact grid_line_data_ne_nil _)
  constructor
  · rw [reparse_headers, hlines]
    have hhead : (((grid_lines t).map String.data).headD []) =
        (grid_line t.headers).data := by
      rw [grid_lines]
      rfl
    rw [hhead]
    exact reparse_cells_grid_line t.headers hne
      (fun s hsm => (hh s hsm).1) (fun s hsm => (hh s hsm).2.2)
  · rw [reparse_data_row_count, hlines, List.length_map, grid_lines]
    simp

/-- C8 amended witness at a concrete input. -/
theorem serialize_reparse_roundtrip_witness :
    reparse_headers (table_to_markdown ⟨"", ["h"], [[("h", "v")]]⟩) =
      (⟨"", ["h"], [[("h", "v")]]⟩ : Table).headers ∧
    reparse_data_row_count (table_to_markdown ⟨"", ["h"], [[("h", "v")]]⟩) =
      (⟨"", ["h"], [[("h", "v")]]⟩ : Table).rows.length :=
  serialize_reparse_roundtrip ⟨"", ["h"], [[("h", "v")]]⟩
    (by decide) (by decide) (by decide)

end Beaumont
